import Mathlib

/-!
Shallow embedding of the pyaxv repository (src/util.py, src/pyaxv.py).

Strings are modelled as `List Char`; `Option` models Python's `None`
("absent"); the comment parser returns `Except Unit (Option Nat)` where
`Except.error ()` models raising a `NameError` on the (alleged) unbound
`number` variable in `_helper`.  The network fetch is an abstract function
parameter, so `getting_data` is parametric in the fetcher.
-/

set_option maxHeartbeats 1000000

/-! ## Comment Parser (`_helper`, util.py lines 160-203) -/

/-- The whitelist of util.py line 165-166: ASCII letters, digits, space, plus. -/
def allowedChar (c : Char) : Bool :=
  c.isLower || c.isUpper || c.isDigit || c == ' ' || c == '+'

/-- Lines 168-169: drop characters outside the whitelist, then lowercase. -/
def clean (raw : List Char) : List Char :=
  (raw.filter allowedChar).map Char.toLower

/-- Boolean list-prefix test (the anchored step of Python substring search). -/
def strPrefix : List Char → List Char → Bool
  | [], _ => true
  | _ :: _, [] => false
  | a :: as, b :: bs => if a = b then strPrefix as bs else false

/-- Python's `needle in haystack` substring test on char lists. -/
def strOccurs (needle : List Char) : List Char → Bool
  | [] => strPrefix needle []
  | c :: rest => strPrefix needle (c :: rest) || strOccurs needle rest

/-- Accumulator-style worker for `splitWords`; `acc` holds the reversed
current token. -/
def splitWordsAux : List Char → List Char → List (List Char)
  | [], acc => if acc = [] then [] else [acc.reverse]
  | c :: rest, acc =>
    if c.isWhitespace then
      if acc = [] then splitWordsAux rest []
      else acc.reverse :: splitWordsAux rest []
    else splitWordsAux rest (c :: acc)

/-- Python's `str.split()`: whitespace-separated tokens, empty tokens dropped
(line 174 `comment.split()`, line 36 `query.split()`, line 211). -/
def splitWords (s : List Char) : List (List Char) :=
  splitWordsAux s []

/-- Python's `list.index` guarded by membership: the index of the first
element equal to `x`, or `none` when `x` is not an element. -/
def firstIdx (x : List Char) : List (List Char) → Option Nat
  | [] => none
  | w :: ws => if w = x then some 0 else (firstIdx x ws).map (fun n => n + 1)

/-- Python's `words[ind - 1]` at lines 178 and 181: for `ind = 0` the Python
index `-1` wraps around to the last element. -/
def pyPrev (ws : List (List Char)) (ind : Nat) : List Char :=
  if ind = 0 then ws.getLastD [] else ws.getD (ind - 1) []

/-- Python's `word.find(search)` (line 185), used only when `search` occurs
in `word`, so the not-found value is irrelevant. -/
def findPos (needle : List Char) : List Char → Nat
  | [] => 0
  | c :: rest => if strPrefix needle (c :: rest) then 0 else findPos needle rest + 1

/-- The `for word in words` loop of lines 183-187: the first token containing
the keyword as a substring yields the prefix before the match. -/
def findSubWord (keyword : List Char) : List (List Char) → Option (List Char)
  | [] => none
  | w :: ws =>
    if strOccurs keyword w then some (w.take (findPos keyword w))
    else findSubWord keyword ws

/-- The candidate-number-token selection of lines 176-187: plural token
first, then the singular token, then the substring scan.  `none` models the
case in which the Python variable `number` is never assigned. -/
def candidateTok (ws : List (List Char)) (keyword : List Char) : Option (List Char) :=
  match firstIdx (keyword ++ ['s']) ws with
  | some ind => some (pyPrev ws ind)
  | none =>
    match firstIdx keyword ws with
    | some ind => some (pyPrev ws ind)
    | none => findSubWord keyword ws

/-- Python's `str.isnumeric()` on cleaned tokens (alphabet a-z, 0-9, `+`):
nonempty and all ASCII digits. -/
def isNumericTok (w : List Char) : Bool :=
  !w.isEmpty && w.all Char.isDigit

/-- The value of Python's `int` on an all-digit string. -/
def digitsToNat (w : List Char) : Nat :=
  w.foldl (fun a c => a * 10 + (c.toNat - 48)) 0

/-- Worker for `splitPlus`. -/
def splitPlusAux : List Char → List Char → List (List Char)
  | [], acc => [acc.reverse]
  | c :: rest, acc =>
    if c = '+' then acc.reverse :: splitPlusAux rest []
    else splitPlusAux rest (c :: acc)

/-- Python's `number.split('+')` (line 192): separator split keeping empty
parts. -/
def splitPlus (w : List Char) : List (List Char) :=
  splitPlusAux w []

/-- The summation loop of lines 193-201: add numeric parts, skip empty
parts, and return `None` on any other part. -/
def sumPlus : List (List Char) → Option Nat
  | [] => some 0
  | p :: rest =>
    if isNumericTok p then (sumPlus rest).map (fun s => digitsToNat p + s)
    else if p = [] then sumPlus rest
    else none

/-- Interpretation of the candidate token, lines 189-203. -/
def interpTok (w : List Char) : Option Nat :=
  if isNumericTok w then some (digitsToNat w)
  else if w.contains '+' then sumPlus (splitPlus w)
  else none

/-- `_helper(comment, search)`, util.py lines 160-203.  `comment = none`
models a non-string input (line 162).  `Except.error ()` models the
`NameError` that running line 189 with an unassigned `number` would raise. -/
def helperE (comment : Option (List Char)) (keyword : List Char) : Except Unit (Option Nat) :=
  match comment with
  | none => Except.ok none
  | some raw =>
    if strOccurs keyword (clean raw) then
      match candidateTok (splitWords (clean raw)) keyword with
      | some tok => Except.ok (interpTok tok)
      | none => Except.error ()
    else Except.ok none

/-- `getting_page` (util.py line 152). -/
def getting_page (comment : Option (List Char)) : Except Unit (Option Nat) :=
  helperE comment ("page".data)

/-- `getting_figure` (util.py line 156). -/
def getting_figure (comment : Option (List Char)) : Except Unit (Option Nat) :=
  helperE comment ("figure".data)

/-! ## Records and the Feature Deriver (`add_features`, util.py lines 206-216) -/

/-- One row of the dataframe built by `generate_df` (util.py lines 91-98). -/
structure ArticleRecord where
  arxiv_id : List Char
  updated_date : List Char
  published_date : List Char
  title : List Char
  summary : List Char
  authors : List (List Char)
  comment : Option (List Char)
  categories : List (List Char)

/-- A row after `add_features`: the unchanged primary record plus the seven
derived columns, in the order they are assigned at lines 208-214. -/
structure DerivedRecord where
  base : ArticleRecord
  pages : Except Unit (Option Nat)
  figures : Except Unit (Option Nat)
  num_of_authors : Nat
  title_length : Nat
  year_of_publishing : Option Nat
  month_of_publishing : Option Nat
  date_of_publishing : Option Nat

/-- Python's `int` applied to a date slice (lines 212-214): the slices taken
from a well-formed date are all-digit strings; `none` models the
`ValueError` raised on anything else. -/
def pyInt (w : List Char) : Option Nat :=
  if isNumericTok w then some (digitsToNat w) else none

/-- The per-row computation of `add_features`: `s[:4]`, `s[5:7]`, `s[8:10]`
become `take 4`, `(drop 5).take 2`, `(drop 8).take 2`. -/
def deriveRecord (r : ArticleRecord) : DerivedRecord :=
  { base := r
    pages := getting_page r.comment
    figures := getting_figure r.comment
    num_of_authors := r.authors.length
    title_length := (splitWords r.title).length
    year_of_publishing := pyInt (r.published_date.take 4)
    month_of_publishing := pyInt ((r.published_date.drop 5).take 2)
    date_of_publishing := pyInt ((r.published_date.drop 8).take 2) }

/-- `add_features(df)` (util.py lines 206-216): every column assignment is a
row-wise `apply`, so the whole function is a map over rows. -/
def add_features (df : List ArticleRecord) : List DerivedRecord :=
  df.map deriveRecord

/-! ## Query Fetcher search expression (`obtaining_raw_data`, util.py lines 35-44) -/

/-- Python's `' AND '.join` (line 39). -/
def joinAND : List (List Char) → List Char
  | [] => []
  | [t] => t
  | t :: ts => t ++ (" AND ".data) ++ joinAND ts

/-- The `search_query` string built at util.py lines 35-44: a string query
is split on whitespace, a list is used as is; the terms are AND-joined; an
empty join yields `cat:<category>`, otherwise
`ti:<terms> AND cat:<category>`. -/
def buildSearchQuery (query : Sum (List Char) (List (List Char))) (category : List Char) :
    List Char :=
  let terms : List (List Char) :=
    match query with
    | Sum.inl s => splitWords s
    | Sum.inr l => l
  let sq := joinAND terms
  if sq = [] then ("cat:".data) ++ category
  else ("ti:".data) ++ sq ++ (" AND cat:".data) ++ category

/-! ## Aggregator (`getting_data`, util.py lines 103-149) -/

/-- `isinstance(x, list)` normalization at lines 122-130: a bare value
becomes a one-element list. -/
def normalizeToList {α : Type} : Sum α (List α) → List α
  | Sum.inl x => [x]
  | Sum.inr l => l

/-- Concatenation of a list of lists (`pd.concat(dfs)` at line 141, row
order preserved). -/
def concatAll {α : Type} : List (List α) → List α
  | [] => []
  | l :: ls => l ++ concatAll ls

/-- The `dfs` list built by the nested loops of lines 134-139: queries in
the outer loop, categories in the inner loop, one fetch result per pair. -/
def fetchResults {Q C α : Type} (fetch : Q → C → List α)
    (queries : List Q) (cats : List C) : List (List α) :=
  concatAll (queries.map (fun q => cats.map (fun c => fetch q c)))

/-- All fetched rows after normalization and concatenation, in encounter
order (lines 122-141). -/
def allFetched {Q C α : Type} (fetch : Q → C → List α)
    (query_list : Sum Q (List Q)) (category : Sum C (List C)) : List α :=
  concatAll (fetchResults fetch (normalizeToList query_list) (normalizeToList category))

/-- `df.drop_duplicates('arxiv_id')` at line 143: keep a row exactly when
its id has not been seen before (pandas keeps the first occurrence). -/
def dedupBy (seen : List (List Char)) : List ArticleRecord → List ArticleRecord
  | [] => []
  | r :: rs =>
    if r.arxiv_id ∈ seen then dedupBy seen rs
    else r :: dedupBy (r.arxiv_id :: seen) rs

/-- Rows paired with consecutive indices starting at `n`. -/
def indexFrom {α : Type} (n : Nat) : List α → List (Nat × α)
  | [] => []
  | a :: l => (n, a) :: indexFrom (n + 1) l

/-- The fresh `RangeIndex` produced by `reset_index` followed by dropping
the saved old index (lines 144-145). -/
def withFreshIndex {α : Type} (l : List α) : List (Nat × α) :=
  indexFrom 0 l

/-- `getting_data` (util.py lines 103-149): fetch every (query, category)
pair of the cross product, concatenate, deduplicate by `arxiv_id` keeping
the first occurrence, and re-index from 0.  The fetch itself
(`obtaining_raw_data` + `generate_df`) is the abstract parameter `fetch`;
the intermediate per-fetch indices are discarded by the final
`reset_index`, so rows carry their index only in the result. -/
def getting_data {Q C : Type} (fetch : Q → C → List ArticleRecord)
    (query_list : Sum Q (List Q)) (category : Sum C (List C)) : List (Nat × ArticleRecord) :=
  withFreshIndex (dedupBy [] (allFetched fetch query_list category))

/-- The cross product of queries and categories in loop order: queries
outer, categories inner. -/
def crossPairs {Q C : Type} (qs : List Q) (cs : List C) : List (Q × C) :=
  concatAll (qs.map (fun q => cs.map (fun c => (q, c))))

/-- A fixed record used to instantiate hypothesis-bearing theorems at a
concrete input. -/
def sampleRecord : ArticleRecord :=
  { arxiv_id := "2103.00001".data
    updated_date := "2021-03-16T00:00:00Z".data
    published_date := "2021-03-15T00:00:00Z".data
    title := "a short title".data
    summary := "s".data
    authors := ["x".data, "y".data]
    comment := some ("12 pages, 3 figures".data)
    categories := ["quant-ph".data] }

/-! ## Theorems -/

/-- Claim C9: `add_features` leaves every primary field of every record and
the number and order of records unchanged; each output row holds its input
row unchanged in `base` and only the seven derived columns are added (the
`DerivedRecord` structure lists exactly those seven besides `base`). -/
theorem c9_add_features_frame (df : List ArticleRecord) :
    (add_features df).map DerivedRecord.base = df ∧ (add_features df).length = df.length := by
  constructor
  · rw [add_features, List.map_map]
    have h : (DerivedRecord.base ∘ deriveRecord) = id := funext fun r => rfl
    rw [h, List.map_id]
  · rw [add_features, List.length_map]

/-- Claim C6: the Feature Deriver yields `year_of_publishing = 2021`,
`month_of_publishing = 3`, `date_of_publishing = 15` for every record whose
`published_date` is `"2021-03-15T00:00:00Z"` (parsed positionally from
characters 0-3, 5-6 and 8-9), and for every record `num_of_authors` is the
length of the authors list and `title_length` the whitespace word count of
the title. -/
theorem c6_feature_deriver (r r2 : ArticleRecord)
    (h : r.published_date = "2021-03-15T00:00:00Z".data) :
    (deriveRecord r).year_of_publishing = some 2021
      ∧ (deriveRecord r).month_of_publishing = some 3
      ∧ (deriveRecord r).date_of_publishing = some 15
      ∧ (deriveRecord r2).num_of_authors = r2.authors.length
      ∧ (deriveRecord r2).title_length = (splitWords r2.title).length
      ∧ add_features [r] = [deriveRecord r] := by
  refine ⟨?_, ?_, ?_, rfl, rfl, rfl⟩ <;> rw [deriveRecord] <;> rw [h] <;> rfl

/-- Witness for C6 at a concrete record carrying the date
`"2021-03-15T00:00:00Z"`. -/
theorem c6_feature_deriver_witness :
    (deriveRecord sampleRecord).year_of_publishing = some 2021
      ∧ (deriveRecord sampleRecord).month_of_publishing = some 3
      ∧ (deriveRecord sampleRecord).date_of_publishing = some 15
      ∧ (deriveRecord sampleRecord).num_of_authors = sampleRecord.authors.length
      ∧ (deriveRecord sampleRecord).title_length = (splitWords sampleRecord.title).length := by
  have h := c6_feature_deriver sampleRecord sampleRecord rfl
  exact ⟨h.1, h.2.1, h.2.2.1, h.2.2.2.1, h.2.2.2.2.1⟩

/-- Claim C4, counterexample: the code builds the prefixes `cat:` and `ti:`,
not the claimed `category:` and `title:`.  At category `quant-ph` the empty
query yields `cat:quant-ph`, which differs from `category:quant-ph`, and the
one-term query `quantum` yields `ti:quantum AND cat:quant-ph`, which differs
from `title:quantum AND category:quant-ph`. -/
theorem c4_search_expression_counterexample :
    buildSearchQuery (Sum.inl []) ("quant-ph".data) = ("cat:quant-ph".data)
      ∧ (("cat:quant-ph".data = "category:quant-ph".data) = False)
      ∧ buildSearchQuery (Sum.inl ("quantum".data)) ("quant-ph".data)
          = ("ti:quantum AND cat:quant-ph".data)
      ∧ (("ti:quantum AND cat:quant-ph".data
            = "title:quantum AND category:quant-ph".data) = False) :=
  ⟨rfl, eq_false (by decide), rfl, eq_false (by decide)⟩

/-- Claim C4 as amended: a string query is first split on whitespace; when
the AND-join of the terms is empty the expression is `cat:<category>`, and
otherwise it is `ti:<terms AND-joined> AND cat:<category>`. -/
theorem c4_search_expression_amended (cat s : List Char) (ts : List (List Char))
    (h : joinAND ts ≠ []) :
    buildSearchQuery (Sum.inl []) cat = ("cat:".data) ++ cat
      ∧ buildSearchQuery (Sum.inr []) cat = ("cat:".data) ++ cat
      ∧ buildSearchQuery (Sum.inr ts) cat
          = ("ti:".data) ++ joinAND ts ++ (" AND cat:".data) ++ cat
      ∧ buildSearchQuery (Sum.inl s) cat = buildSearchQuery (Sum.inr (splitWords s)) cat := by
  refine ⟨rfl, rfl, ?_, rfl⟩
  simp only [buildSearchQuery]
  rw [if_neg h]

/-- Witness for C4 at the one-term query `quantum` and category
`quant-ph`. -/
theorem c4_search_expression_witness :
    buildSearchQuery (Sum.inr [("quantum".data)]) ("quant-ph".data)
      = ("ti:".data) ++ joinAND [("quantum".data)] ++ (" AND cat:".data) ++ ("quant-ph".data) :=
  (c4_search_expression_amended ("quant-ph".data) [] [("quantum".data)] (by decide)).2.2.1

/-- Claim C8: `extract_count` returns absent for an absent (non-string)
comment and for every comment whose cleaned, lowercased form does not
contain the keyword; in these cases it returns normally (no error value). -/
theorem c8_absent_cases (keyword raw : List Char)
    (h : strOccurs keyword (clean raw) = false) :
    helperE none keyword = Except.ok none
      ∧ helperE (some raw) keyword = Except.ok none := by
  refine ⟨rfl, ?_⟩
  simp only [helperE, h]
  rfl

/-- Witness for C8: keyword `page` with an absent comment and with the
comment `"3 tables"`, which does not contain it. -/
theorem c8_absent_cases_witness :
    helperE none ("page".data) = Except.ok none
      ∧ helperE (some ("3 tables".data)) ("page".data) = Except.ok none :=
  c8_absent_cases ("page".data) ("3 tables".data) (by decide)

/-- A nonempty needle is no prefix of the empty string. -/
theorem strPrefix_nil_of_ne (n : List Char) (h : n ≠ []) : strPrefix n [] = false := by
  cases n with
  | nil => exact absurd rfl h
  | cons x n' => rfl

/-- A nonempty needle does not occur in the empty string. -/
theorem strOccurs_nil_of_ne (n : List Char) (h : n ≠ []) : strOccurs n [] = false := by
  cases n with
  | nil => exact absurd rfl h
  | cons x n' => rfl

/-- A needle without whitespace cannot look past a whitespace character:
being a prefix of `a ++ c :: b` is being a prefix of `a`. -/
theorem strPrefix_ws_split (c : Char) (hc : c.isWhitespace = true) :
    ∀ n a b : List Char, (∀ x ∈ n, x.isWhitespace = false) →
      strPrefix n (a ++ c :: b) = strPrefix n a := by
  intro n
  induction n with
  | nil => intro a b _; rfl
  | cons x n' ih =>
    intro a b hn
    cases a with
    | nil =>
      have hx : x ≠ c := fun e => by
        have hxw := hn x (List.mem_cons_self x n')
        rw [e, hc] at hxw
        exact Bool.noConfusion hxw
      show strPrefix (x :: n') (c :: b) = strPrefix (x :: n') []
      rw [strPrefix_nil_of_ne (x :: n') (by simp)]
      show (if x = c then strPrefix n' b else false) = false
      rw [if_neg hx]
    | cons y a' =>
      show (if x = y then strPrefix n' (a' ++ c :: b) else false)
          = (if x = y then strPrefix n' a' else false)
      by_cases hxy : x = y
      · rw [if_pos hxy, if_pos hxy, ih a' b (fun z hz => hn z (List.mem_cons_of_mem x hz))]
      · rw [if_neg hxy, if_neg hxy]

/-- An occurrence of a nonempty whitespace-free needle in `a ++ c :: b` with
`c` whitespace lies entirely inside `a` or entirely inside `b`. -/
theorem strOccurs_ws_split (n : List Char) (c : Char) (hc : c.isWhitespace = true)
    (hne : n ≠ []) (hn : ∀ x ∈ n, x.isWhitespace = false) :
    ∀ a b : List Char, strOccurs n (a ++ c :: b) = (strOccurs n a || strOccurs n b) := by
  intro a
  induction a with
  | nil =>
    intro b
    rw [List.nil_append, strOccurs_nil_of_ne n hne, Bool.false_or]
    show (strPrefix n (c :: b) || strOccurs n b) = strOccurs n b
    have hp : strPrefix n (c :: b) = false := by
      have h0 := strPrefix_ws_split c hc n [] b hn
      rw [List.nil_append, strPrefix_nil_of_ne n hne] at h0
      exact h0
    rw [hp, Bool.false_or]
  | cons y a' ih =>
    intro b
    show (strPrefix n (y :: (a' ++ c :: b)) || strOccurs n (a' ++ c :: b))
        = (strOccurs n (y :: a') || strOccurs n b)
    rw [ih b]
    have hp : strPrefix n (y :: (a' ++ c :: b)) = strPrefix n (y :: a') :=
      strPrefix_ws_split c hc n (y :: a') b hn
    rw [hp, ← Bool.or_assoc]
    rfl

/-- Any occurrence of a nonempty whitespace-free needle in the splitter's
remaining input lies inside one of the produced tokens. -/
theorem splitWordsAux_cover (n : List Char) (hne : n ≠ [])
    (hn : ∀ x ∈ n, x.isWhitespace = false) :
    ∀ s acc : List Char, strOccurs n (acc.reverse ++ s) = true →
      ∃ w ∈ splitWordsAux s acc, strOccurs n w = true := by
  intro s
  induction s with
  | nil =>
    intro acc h
    rw [List.append_nil] at h
    by_cases ha : acc = []
    · rw [ha, List.reverse_nil, strOccurs_nil_of_ne n hne] at h
      exact Bool.noConfusion h
    · exact ⟨acc.reverse, by simp [splitWordsAux, ha], h⟩
  | cons c rest ih =>
    intro acc h
    by_cases hw : c.isWhitespace
    · rw [strOccurs_ws_split n c hw hne hn acc.reverse rest] at h
      rcases Bool.or_eq_true_iff.mp h with h1 | h2
      · have ha : acc ≠ [] := fun e => by
          rw [e, List.reverse_nil, strOccurs_nil_of_ne n hne] at h1
          exact Bool.noConfusion h1
        refine ⟨acc.reverse, ?_, h1⟩
        simp [splitWordsAux, hw, ha]
      · obtain ⟨w, hmem, hocc⟩ := ih [] (by simpa using h2)
        refine ⟨w, ?_, hocc⟩
        by_cases ha : acc = []
        · simpa [splitWordsAux, hw, ha] using hmem
        · simp [splitWordsAux, hw, ha]
          exact Or.inr hmem
    · have hsh : acc.reverse ++ c :: rest = (c :: acc).reverse ++ rest := by
        rw [List.reverse_cons, List.append_assoc]
        rfl
      rw [hsh] at h
      obtain ⟨w, hmem, hocc⟩ := ih (c :: acc) h
      refine ⟨w, ?_, hocc⟩
      simpa [splitWordsAux, hw] using hmem

/-- The substring scan of lines 183-187 finds a token as soon as one token
contains the keyword. -/
theorem findSubWord_isSome (n : List Char) :
    ∀ ws : List (List Char), (∃ w ∈ ws, strOccurs n w = true) →
      ∃ tok, findSubWord n ws = some tok := by
  intro ws
  induction ws with
  | nil =>
    rintro ⟨w, hw, _⟩
    exact absurd hw (List.not_mem_nil w)
  | cons w' ws' ih =>
    rintro ⟨w, hw, hocc⟩
    by_cases hob : strOccurs n w' = true
    · exact ⟨w'.take (findPos n w'), by simp [findSubWord, hob]⟩
    · rcases List.mem_cons.mp hw with he | hm
      · rw [he] at hocc
        exact absurd hocc hob
      · obtain ⟨tok, ht⟩ := ih ⟨w, hm, hocc⟩
        exact ⟨tok, by simp [findSubWord, hob, ht]⟩

/-- The candidate selection of lines 176-187 always assigns a token when
some token contains the keyword. -/
theorem candidateTok_isSome (n : List Char) (ws : List (List Char))
    (h : ∃ w ∈ ws, strOccurs n w = true) :
    ∃ tok, candidateTok ws n = some tok := by
  unfold candidateTok
  cases h1 : firstIdx (n ++ ['s']) ws with
  | some ind => exact ⟨pyPrev ws ind, rfl⟩
  | none =>
    cases h2 : firstIdx n ws with
    | some ind => exact ⟨pyPrev ws ind, rfl⟩
    | none => exact findSubWord_isSome n ws h

/-- `_helper` run on any string comment returns a value (never the
unbound-variable error) for a nonempty whitespace-free keyword: if the
keyword survives the containment check it occurs inside some whitespace
token, so the substring scan binds a candidate. -/
theorem helperE_total (raw n : List Char) (hne : n ≠ [])
    (hn : ∀ x ∈ n, x.isWhitespace = false) :
    ∃ v, helperE (some raw) n = Except.ok v := by
  by_cases ho : strOccurs n (clean raw) = true
  · have hcov : ∃ w ∈ splitWords (clean raw), strOccurs n w = true := by
      have h0 := splitWordsAux_cover n hne hn (clean raw) [] (by simpa using ho)
      simpa [splitWords] using h0
    obtain ⟨tok, ht⟩ := candidateTok_isSome n (splitWords (clean raw)) hcov
    refine ⟨interpTok tok, ?_⟩
    simp only [helperE]
    rw [if_pos ho, ht]
  · have ho' : strOccurs n (clean raw) = false := by
      cases hb : strOccurs n (clean raw)
      · rfl
      · exact absurd hb ho
    exact ⟨none, by simp [helperE, ho']⟩

/-- Claim C5, counterexample evaluation: on `"frontpage"` the keyword
`page` occurs only as a substring of a longer token with a non-numeric
prefix, the alleged defect input; the substring scan binds the candidate
`"front"` and `extract_count` returns absent (`Except.ok none`), not an
unbound-variable error as the claim asserts. -/
theorem c5_unbound_counterexample :
    getting_page (some ("frontpage".data)) = Except.ok none
      ∧ getting_figure (some ("frontpage".data)) = Except.ok none
      ∧ candidateTok (splitWords (clean ("frontpage".data))) ("page".data)
          = some ("front".data) :=
  ⟨rfl, rfl, rfl⟩

/-- Claim C5 as amended: the substring-match branch always assigns a
candidate (a nonempty whitespace-free keyword occurring in the cleaned
string occurs inside one of its whitespace tokens), so `extract_count`
never raises: for every comment and for the keywords `page` and `figure`
it returns a value. -/
theorem c5_no_unbound_candidate (c : Option (List Char)) (raw keyword : List Char)
    (hne : keyword ≠ []) (hn : ∀ x ∈ keyword, x.isWhitespace = false) :
    (∃ v, helperE (some raw) keyword = Except.ok v)
      ∧ (∃ v, getting_page c = Except.ok v)
      ∧ (∃ v, getting_figure c = Except.ok v) := by
  refine ⟨helperE_total raw keyword hne hn, ?_, ?_⟩
  · cases c with
    | none => exact ⟨none, rfl⟩
    | some r => exact helperE_total r ("page".data) (by decide) (by decide)
  · cases c with
    | none => exact ⟨none, rfl⟩
    | some r => exact helperE_total r ("figure".data) (by decide) (by decide)

/-- Witness for C5 at the comment `"frontpage story"` and keyword `page`. -/
theorem c5_no_unbound_candidate_witness :
    (∃ v, helperE (some ("frontpage story".data)) ("page".data) = Except.ok v)
      ∧ (∃ v, getting_page (some ("frontpage story".data)) = Except.ok v)
      ∧ (∃ v, getting_figure (some ("frontpage story".data)) = Except.ok v) :=
  c5_no_unbound_candidate (some ("frontpage story".data)) ("frontpage story".data)
    ("page".data) (by decide) (by decide)

/-- When the plural token is found at index `i`, `_helper` returns the
interpretation of the token at Python index `i - 1`. -/
theorem helperE_plural (raw keyword : List Char) (i : Nat)
    (ho : strOccurs keyword (clean raw) = true)
    (hi : firstIdx (keyword ++ ['s']) (splitWords (clean raw)) = some i) :
    helperE (some raw) keyword
      = Except.ok (interpTok (pyPrev (splitWords (clean raw)) i)) := by
  simp only [helperE]
  rw [if_pos ho]
  unfold candidateTok
  rw [hi]

/-- Claim C1, counterexample: the comment `"7 pages, 12 pages, 3 figures"`
contains the substring `"12 pages, 3 figures"`, yet `extract_count` for
`page` returns 7 (the token before the FIRST `pages`), not 12. -/
theorem c1_counterexample :
    strOccurs ("12 pages, 3 figures".data) ("7 pages, 12 pages, 3 figures".data) = true
      ∧ getting_page (some ("7 pages, 12 pages, 3 figures".data)) = Except.ok (some 7)
      ∧ ((Except.ok (some 7) : Except Unit (Option Nat)) = Except.ok (some 12)) = False
      ∧ getting_figure (some ("7 pages, 12 pages, 3 figures".data)) = Except.ok (some 3) :=
  ⟨rfl, rfl, by simp, rfl⟩

/-- Claim C1 as amended: for every comment string whose cleaned token list
has its first `pages` token immediately preceded (in the wrap-around sense
of the Python `-1` index) by the token `12` and its first `figures` token
preceded by `3` — as in any comment equal to `"12 pages, 3 figures"` —
`extract_count` returns 12 for `page` and 3 for `figure`. -/
theorem c1_pages_figures (raw : List Char) (i j : Nat)
    (hop : strOccurs ("page".data) (clean raw) = true)
    (hof : strOccurs ("figure".data) (clean raw) = true)
    (hip : firstIdx (("page".data) ++ ['s']) (splitWords (clean raw)) = some i)
    (hvp : pyPrev (splitWords (clean raw)) i = ("12".data))
    (hif : firstIdx (("figure".data) ++ ['s']) (splitWords (clean raw)) = some j)
    (hvf : pyPrev (splitWords (clean raw)) j = ("3".data)) :
    getting_page (some raw) = Except.ok (some 12)
      ∧ getting_figure (some raw) = Except.ok (some 3) := by
  constructor
  · rw [getting_page, helperE_plural raw ("page".data) i hop hip, hvp]
    rfl
  · rw [getting_figure, helperE_plural raw ("figure".data) j hof hif, hvf]
    rfl

/-- Witness for C1 at the comment `"12 pages, 3 figures"` itself. -/
theorem c1_pages_figures_witness :
    getting_page (some ("12 pages, 3 figures".data)) = Except.ok (some 12)
      ∧ getting_figure (some ("12 pages, 3 figures".data)) = Except.ok (some 3) :=
  c1_pages_figures ("12 pages, 3 figures".data) 1 3 rfl rfl rfl rfl rfl rfl

/-- The summation loop of lines 193-201 on a list whose nonempty parts are
all numeric returns the sum of the parts (empty parts contribute 0). -/
theorem sumPlus_all_numeric :
    ∀ parts : List (List Char), (∀ p ∈ parts, p = [] ∨ isNumericTok p = true) →
      sumPlus parts = some ((parts.map digitsToNat).sum) := by
  intro parts
  induction parts with
  | nil => intro _; rfl
  | cons p rest ih =>
    intro h
    have hrest := ih (fun q hq => h q (List.mem_cons_of_mem p hq))
    rcases h p (List.mem_cons_self p rest) with he | hnum
    · rw [he]
      simp [sumPlus, isNumericTok, hrest, digitsToNat]
    · simp [sumPlus, hnum, hrest]

/-- The summation loop returns `None` as soon as the parts contain a
nonempty non-numeric entry. -/
theorem sumPlus_bad_part :
    ∀ (parts : List (List Char)) (p : List Char), p ∈ parts → p ≠ [] →
      isNumericTok p = false → sumPlus parts = none := by
  intro parts
  induction parts with
  | nil => intro p hp _ _; exact absurd hp (List.not_mem_nil p)
  | cons q rest ih =>
    intro p hp hpe hpn
    rcases List.mem_cons.mp hp with he | hm
    · subst he
      simp [sumPlus, hpn, hpe]
    · by_cases hq : isNumericTok q = true
      · simp [sumPlus, hq, ih p hm hpe hpn]
      · by_cases hqe : q = []
        · simp [sumPlus, hq, hqe, ih p hm hpe hpn]
        · simp [sumPlus, hq, hqe]

/-- A token containing `+` is not numeric, so the interpretation of lines
189-203 reduces to the split-and-sum loop. -/
theorem interpTok_plus (w : List Char) (h : w.contains '+' = true) :
    interpTok w = sumPlus (splitPlus w) := by
  have hmem : ('+') ∈ w := by simpa using h
  have hnum : isNumericTok w = false := by
    cases hall : w.all Char.isDigit with
    | false => simp [isNumericTok, hall]
    | true =>
      have hd := (List.all_eq_true.mp hall) ('+') hmem
      exact absurd hd (by decide)
  rw [interpTok, if_neg (by simp [hnum]), if_pos h]

/-- Claim C7, counterexample: the comment `"2 pages and 5+3 pages"`
contains the substring `"5+3 pages"`, yet `extract_count` for `page`
returns 2 (the token before the FIRST `pages`), not 8. -/
theorem c7_counterexample :
    strOccurs ("5+3 pages".data) ("2 pages and 5+3 pages".data) = true
      ∧ getting_page (some ("2 pages and 5+3 pages".data)) = Except.ok (some 2)
      ∧ ((Except.ok (some 2) : Except Unit (Option Nat)) = Except.ok (some 8)) = False :=
  ⟨rfl, rfl, by simp⟩

/-- Claim C7 as amended: for every comment whose cleaned token list has its
first `pages` token preceded by the candidate `5+3` — as in any comment
equal to `"5+3 pages"` — `extract_count` for `page` returns 8; in general a
candidate containing `+` is summed over its `+`-separated parts with empty
parts ignored, and the result is absent when some nonempty part is
non-numeric. -/
theorem c7_plus_sum (raw w : List Char) (i : Nat)
    (parts1 parts2 : List (List Char)) (p : List Char)
    (ho : strOccurs ("page".data) (clean raw) = true)
    (hi : firstIdx (("page".data) ++ ['s']) (splitWords (clean raw)) = some i)
    (hv : pyPrev (splitWords (clean raw)) i = ("5+3".data))
    (hw : w.contains '+' = true)
    (hall : ∀ q ∈ parts1, q = [] ∨ isNumericTok q = true)
    (hp : p ∈ parts2) (hpe : p ≠ []) (hpn : isNumericTok p = false) :
    getting_page (some raw) = Except.ok (some 8)
      ∧ interpTok w = sumPlus (splitPlus w)
      ∧ sumPlus parts1 = some ((parts1.map digitsToNat).sum)
      ∧ sumPlus parts2 = none := by
  refine ⟨?_, interpTok_plus w hw, sumPlus_all_numeric parts1 hall,
    sumPlus_bad_part parts2 p hp hpe hpn⟩
  rw [getting_page, helperE_plural raw ("page".data) i ho hi, hv]
  rfl

/-- Witness for C7 at the comment `"5+3 pages"`, the candidate `5+3`, the
all-numeric parts `["5", "3"]` and the malformed parts `["x5"]`. -/
theorem c7_plus_sum_witness :
    getting_page (some ("5+3 pages".data)) = Except.ok (some 8)
      ∧ interpTok ("5+3".data) = sumPlus (splitPlus ("5+3".data))
      ∧ sumPlus [("5".data), ("3".data)]
          = some (([("5".data), ("3".data)].map digitsToNat).sum)
      ∧ sumPlus [("x5".data)] = none :=
  c7_plus_sum ("5+3 pages".data) ("5+3".data) 1 [("5".data), ("3".data)] [("x5".data)]
    ("x5".data) rfl rfl rfl (by decide) (by decide) (by decide) (by decide) (by decide)

/-- Claim C10, counterexample: on `"page 3 pages"` the first token is
exactly the keyword `page`, yet the candidate token is `3` (the plural
branch fires at index 2), not the last token of the string. -/
theorem c10_counterexample :
    (splitWords (clean ("page 3 pages".data))).headD [] = ("page".data)
      ∧ candidateTok (splitWords (clean ("page 3 pages".data))) ("page".data)
          = some ("3".data)
      ∧ (("3".data = (splitWords (clean ("page 3 pages".data))).getLastD []) = False)
      ∧ getting_page (some ("page 3 pages".data)) = Except.ok (some 3) :=
  ⟨rfl, rfl, eq_false (by decide), rfl⟩

/-- Claim C10 as amended: when the first cleaned token is the plural of the
keyword, or is exactly the keyword and the plural occurs nowhere among the
tokens, the index-minus-one lookup at position 0 wraps to the end and the
candidate is the LAST token; hence `extract_count("pages 7", "page") = 7`
rather than absent. -/
theorem c10_first_token_wraps (raw keyword : List Char) (rest : List (List Char))
    (h1 : splitWords (clean raw) = (keyword ++ ['s']) :: rest ∨
          (splitWords (clean raw) = keyword :: rest
            ∧ firstIdx (keyword ++ ['s']) (splitWords (clean raw)) = none)) :
    candidateTok (splitWords (clean raw)) keyword
        = some ((splitWords (clean raw)).getLastD [])
      ∧ getting_page (some ("pages 7".data)) = Except.ok (some 7) := by
  refine ⟨?_, rfl⟩
  rcases h1 with hp | ⟨hs, hnone⟩
  · rw [hp]
    have h0 : firstIdx (keyword ++ ['s']) ((keyword ++ ['s']) :: rest) = some 0 := by
      simp [firstIdx]
    unfold candidateTok
    rw [h0]
    simp [pyPrev]
  · have h0 : firstIdx keyword (splitWords (clean raw)) = some 0 := by
      rw [hs]
      simp [firstIdx]
    unfold candidateTok
    rw [hnone, h0]
    simp [pyPrev]

/-- Witness for C10 at the comment `"pages 7"` and keyword `page`. -/
theorem c10_first_token_wraps_witness :
    candidateTok (splitWords (clean ("pages 7".data))) ("page".data)
        = some ((splitWords (clean ("pages 7".data))).getLastD [])
      ∧ getting_page (some ("pages 7".data)) = Except.ok (some 7) :=
  c10_first_token_wraps ("pages 7".data) ("page".data) [("7".data)] (Or.inl (by decide))

/-- Concatenation distributes over list append. -/
theorem concatAll_append {α : Type} :
    ∀ l1 l2 : List (List α), concatAll (l1 ++ l2) = concatAll l1 ++ concatAll l2 := by
  intro l1 l2
  induction l1 with
  | nil => rfl
  | cons l ls ih => simp [concatAll, ih, List.append_assoc]

/-- Concatenating singletons is the identity. -/
theorem concatAll_map_singleton {α : Type} :
    ∀ l : List α, concatAll (l.map (fun x => [x])) = l := by
  intro l
  induction l with
  | nil => rfl
  | cons x xs ih => simp [concatAll, ih]

/-- The rows fetched by the nested loops equal the fetch results of the
cross-product pairs, concatenated in pair order. -/
theorem allFetched_cross {Q C α : Type} (f : Q → C → List α) :
    ∀ (qs : List Q) (cs : List C),
      allFetched f (Sum.inr qs) (Sum.inr cs)
        = concatAll ((crossPairs qs cs).map (fun p => f p.1 p.2)) := by
  intro qs cs
  induction qs with
  | nil => rfl
  | cons q qs' ih =>
    have h1 : fetchResults f (q :: qs') cs
        = cs.map (fun c => f q c) ++ fetchResults f qs' cs := rfl
    have h2 : crossPairs (q :: qs') cs
        = cs.map (fun c => (q, c)) ++ crossPairs qs' cs := rfl
    have ih' : concatAll (fetchResults f qs' cs)
        = concatAll ((crossPairs qs' cs).map (fun p => f p.1 p.2)) := ih
    show concatAll (fetchResults f (q :: qs') cs)
        = concatAll ((crossPairs (q :: qs') cs).map (fun p => f p.1 p.2))
    rw [h1, concatAll_append, h2, List.map_append, concatAll_append, ih', List.map_map]
    rfl

/-- The cross product has one pair per (query, category) combination. -/
theorem crossPairs_length {Q C : Type} :
    ∀ (qs : List Q) (cs : List C), (crossPairs qs cs).length = qs.length * cs.length := by
  intro qs cs
  induction qs with
  | nil => simp [crossPairs, concatAll]
  | cons q qs' ih =>
    have h2 : crossPairs (q :: qs') cs
        = cs.map (fun c => (q, c)) ++ crossPairs qs' cs := rfl
    rw [h2, List.length_append, List.length_map, ih, List.length_cons, Nat.succ_mul]
    exact Nat.add_comm _ _

/-- Claim C3: the Aggregator iterates queries in the outer loop and
categories in the inner loop, invoking the fetcher once per pair of the
full cross product (m*n invocations, witnessed by a fetcher that logs its
own call pair) and concatenating results in that encounter order; a single
query or category is normalized to a one-element list; the two-by-two
example issues exactly the four pairs in order. -/
theorem c3_cross_product (Q C α : Type) (f : Q → C → List α)
    (qs : List Q) (cs : List C) (q0 : Q) (c0 : C)
    (ql : Sum Q (List Q)) (cl : Sum C (List C)) :
    allFetched f (Sum.inr qs) (Sum.inr cs)
        = concatAll ((crossPairs qs cs).map (fun p => f p.1 p.2))
      ∧ (crossPairs qs cs).length = qs.length * cs.length
      ∧ allFetched (fun a b => [(a, b)]) (Sum.inr qs) (Sum.inr cs) = crossPairs qs cs
      ∧ allFetched f (Sum.inl q0) cl = allFetched f (Sum.inr [q0]) cl
      ∧ allFetched f ql (Sum.inl c0) = allFetched f ql (Sum.inr [c0])
      ∧ crossPairs ["a", "b"] ["cat1", "cat2"]
          = [("a", "cat1"), ("a", "cat2"), ("b", "cat1"), ("b", "cat2")] := by
  refine ⟨allFetched_cross f qs cs, crossPairs_length qs cs, ?_, rfl, rfl, rfl⟩
  rw [allFetched_cross (fun a b => [(a, b)]) qs cs]
  exact concatAll_map_singleton (crossPairs qs cs)

/-- Dropping the indices recovers the rows. -/
theorem indexFrom_map_snd {α : Type} :
    ∀ (l : List α) (n : Nat), (indexFrom n l).map Prod.snd = l := by
  intro l
  induction l with
  | nil => intro n; rfl
  | cons a l' ih => intro n; simp [indexFrom, ih]

/-- Indexing preserves length. -/
theorem indexFrom_length {α : Type} :
    ∀ (l : List α) (n : Nat), (indexFrom n l).length = l.length := by
  intro l
  induction l with
  | nil => intro n; rfl
  | cons a l' ih => intro n; simp [indexFrom, ih]

/-- The indices produced from `n` are `n, n+1, ...`. -/
theorem indexFrom_map_fst {α : Type} :
    ∀ (l : List α) (n : Nat),
      (indexFrom n l).map Prod.fst = (List.range l.length).map (fun k => n + k) := by
  intro l
  induction l with
  | nil => intro n; rfl
  | cons a l' ih =>
    intro n
    show n :: (indexFrom (n + 1) l').map Prod.fst = _
    rw [ih (n + 1), List.length_cons, List.range_succ_eq_map, List.map_cons, List.map_map]
    refine congrArg₂ List.cons (by omega) ?_
    exact List.map_congr_left (fun k hk => by simp only [Function.comp]; omega)

/-- The fresh index is the contiguous range starting at 0. -/
theorem withFreshIndex_map_fst {α : Type} (l : List α) :
    (withFreshIndex l).map Prod.fst = List.range l.length := by
  rw [withFreshIndex, indexFrom_map_fst]
  simp

/-- Under an already-seen key the deduplicated rows contain no row with
that key. -/
theorem dedupBy_filter_of_seen :
    ∀ (l : List ArticleRecord) (seen : List (List Char)) (key : List Char), key ∈ seen →
      (dedupBy seen l).filter (fun r => decide (r.arxiv_id = key)) = [] := by
  intro l
  induction l with
  | nil => intro seen key _; rfl
  | cons r rs ih =>
    intro seen key hk
    by_cases hm : r.arxiv_id ∈ seen
    · simp only [dedupBy]
      rw [if_pos hm]
      exact ih seen key hk
    · simp only [dedupBy]
      rw [if_neg hm]
      have hd : (decide (r.arxiv_id = key)) = false :=
        decide_eq_false (fun e => hm (by rw [e]; exact hk))
      simp [List.filter_cons, hd, ih (r.arxiv_id :: seen) key (List.mem_cons_of_mem _ hk)]

/-- Deduplication keeps, for every key not yet seen, exactly the first row
carrying that key (the `take 1` of the filtered concatenation). -/
theorem dedupBy_filter :
    ∀ (l : List ArticleRecord) (seen : List (List Char)) (key : List Char), key ∉ seen →
      (dedupBy seen l).filter (fun r => decide (r.arxiv_id = key))
        = (l.filter (fun r => decide (r.arxiv_id = key))).take 1 := by
  intro l
  induction l with
  | nil => intro seen key _; rfl
  | cons r rs ih =>
    intro seen key hk
    by_cases hm : r.arxiv_id ∈ seen
    · have hd : (decide (r.arxiv_id = key)) = false :=
        decide_eq_false (fun e => hk (by rw [← e]; exact hm))
      simp only [dedupBy]
      rw [if_pos hm, ih seen key hk]
      simp [List.filter_cons, hd]
    · simp only [dedupBy]
      rw [if_neg hm]
      by_cases he : r.arxiv_id = key
      · have hd : (decide (r.arxiv_id = key)) = true := decide_eq_true he
        have hz := dedupBy_filter_of_seen rs (r.arxiv_id :: seen) key
          (by rw [← he]; exact List.mem_cons_self _ _)
        simp [List.filter_cons, hd, hz]
      · have hd : (decide (r.arxiv_id = key)) = false := decide_eq_false he
        have hk' : key ∉ r.arxiv_id :: seen := by
          intro hx
          rcases List.mem_cons.mp hx with h1 | h2
          · exact he h1.symm
          · exact hk h2
        simp [List.filter_cons, hd, ih (r.arxiv_id :: seen) key hk']

/-- The deduplicated rows have pairwise distinct ids, none of them already
seen. -/
theorem dedupBy_nodup :
    ∀ (l : List ArticleRecord) (seen : List (List Char)),
      ((dedupBy seen l).map (fun r => r.arxiv_id)).Nodup
        ∧ ∀ x ∈ (dedupBy seen l).map (fun r => r.arxiv_id), x ∉ seen := by
  intro l
  induction l with
  | nil => intro seen; exact ⟨List.nodup_nil, by simp [dedupBy]⟩
  | cons r rs ih =>
    intro seen
    by_cases hm : r.arxiv_id ∈ seen
    · simp only [dedupBy]
      rw [if_pos hm]
      exact ih seen
    · simp only [dedupBy]
      rw [if_neg hm]
      obtain ⟨hnd, hnin⟩ := ih (r.arxiv_id :: seen)
      constructor
      · rw [List.map_cons, List.nodup_cons]
        exact ⟨fun hx => (hnin r.arxiv_id hx) (List.mem_cons_self _ _), hnd⟩
      · intro x hx
        rw [List.map_cons] at hx
        rcases List.mem_cons.mp hx with h1 | h2
        · rw [h1]; exact hm
        · exact fun hxs => (hnin x h2) (List.mem_cons_of_mem _ hxs)

/-- Claim C2: after aggregation the `arxiv_id` values are pairwise
distinct; for every id the rows carrying it are exactly the first
occurrence in concatenation order (so duplicates across fetch results
collapse to the first-seen record); and the final index is contiguous from
0. -/
theorem c2_dedup_invariant (Q C : Type) (f : Q → C → List ArticleRecord)
    (ql : Sum Q (List Q)) (cl : Sum C (List C)) :
    ((getting_data f ql cl).map (fun p => p.2.arxiv_id)).Nodup
      ∧ (∀ key : List Char,
          ((getting_data f ql cl).map Prod.snd).filter (fun r => decide (r.arxiv_id = key))
            = ((allFetched f ql cl).filter (fun r => decide (r.arxiv_id = key))).take 1)
      ∧ (getting_data f ql cl).map Prod.fst = List.range (getting_data f ql cl).length := by
  have hsnd : (getting_data f ql cl).map Prod.snd = dedupBy [] (allFetched f ql cl) :=
    indexFrom_map_snd (dedupBy [] (allFetched f ql cl)) 0
  refine ⟨?_, ?_, ?_⟩
  · have h1 : (getting_data f ql cl).map (fun p => p.2.arxiv_id)
        = ((getting_data f ql cl).map Prod.snd).map (fun r => r.arxiv_id) := by
      rw [List.map_map]
      rfl
    rw [h1, hsnd]
    exact (dedupBy_nodup (allFetched f ql cl) []).1
  · intro key
    rw [hsnd]
    exact dedupBy_filter (allFetched f ql cl) [] key (List.not_mem_nil key)
  · have hlen : (getting_data f ql cl).length = (dedupBy [] (allFetched f ql cl)).length :=
      indexFrom_length (dedupBy [] (allFetched f ql cl)) 0
    rw [hlen]
    exact withFreshIndex_map_fst (dedupBy [] (allFetched f ql cl))
